import Mathlib

/-!
Shallow embedding of `src/data_parse/make_loops.py` (loop extraction for
DadaGP token streams) and verification of the frozen claims about it.

Modelling conventions:
* Python lists are Lean lists; numpy matrices become total functions that
  are zero outside the region the source writes (numpy starts from zeros).
* Python floats on tick data are modelled with exact rationals; all tick
  values in scope are integers or small rationals, so no rounding is lost.
* A Python runtime error (the ZeroDivisionError reachable in
  `filter_loops_density` and `unify_loops`) is modelled by `Option`:
  `none` means the call raises.
* Python dicts that are only ever keyed by unique keys are association
  lists kept in insertion order, matching dict iteration order.
-/

-- Let `decide` evaluate concrete rational arithmetic: the library marks
-- these operations irreducible, which only hides them from elaborator-side
-- reduction; the kernel re-checks every such proof by full evaluation.
attribute [local semireducible] Rat.mul Rat.add Rat.inv Rat.sub

/-- Embeds `class MelodyNote` (make_loops.py lines 21-38): the comparable
note unit.  Pitch strings and note-type tags are stored as the rendered
strings the source keeps in its Python sets. -/
structure MelodyNote where
  duration : Int
  is_dotted : Bool
  tick_duration : ℚ
  start_time : Int
  on_bar : Bool
  notes : List String
  note_types : List String
deriving DecidableEq

/-- Embeds `MelodyNote.__init__` (lines 22-38): `tick_duration` is 3840
over the duration code, times 3/2 when dotted; an empty note list becomes
the rest sentinel pitch set and rest type set. -/
def mk_melody_note (durationValue : Int) (isDotted : Bool) (start barStart : Int)
    (pitchList : List String) (typeList : List String) : MelodyNote :=
  ⟨durationValue, isDotted,
    (if isDotted then (3840 / (durationValue : ℚ)) * (3 / 2) else 3840 / (durationValue : ℚ)),
    start, decide (start = barStart),
    (if pitchList.isEmpty then ["0:0"] else pitchList),
    (if pitchList.isEmpty then ["rest"] else typeList)⟩

/-- Embeds `MelodyNote.__eq__` (lines 43-55): duration, dotted flag, then
pitch-set equality tested as equal size plus membership of every element. -/
def note_eq (a b : MelodyNote) : Bool :=
  if a.duration ≠ b.duration then false
  else if a.is_dotted ≠ b.is_dotted then false
  else if a.notes.length ≠ b.notes.length then false
  else a.notes.all (fun m => b.notes.contains m)

/-- Python set equality, used on `note_types` by `is_empty_pattern`. -/
def set_eq_str (xs ys : List String) : Bool :=
  xs.all (fun u => ys.contains u) && ys.all (fun u => xs.contains u)

/-- Embeds `is_empty_pattern` (lines 57-61). -/
def is_empty_pattern (p : List MelodyNote) : Bool :=
  p.all (fun m => set_eq_str m.note_types ["rest"])

/-- Embeds `compare_patterns` (lines 63-73).  Faithful to the source's
early returns: only index 0 is ever compared (the `return` statements sit
inside the first loop iteration), and an empty shorter side falls through
the loop, returning Python `None` (here `none`). -/
def compare_patterns (p1 p2 : List MelodyNote) : Option Nat :=
  if p1.length < p2.length then
    match p1.head?, p2.head? with
    | some a, some b => some (if note_eq a b then 1 else 0)
    | _, _ => none
  else
    match p2.head?, p1.head? with
    | some b, some a => some (if note_eq a b then 2 else 0)
    | _, _ => none

def test_loop_exists_aux (pat : List MelodyNote) :
    List (List MelodyNote) → Nat → Option Int
  | [], _ => none
  | q :: rest, i =>
    match compare_patterns pat q with
    | some 1 => some (-1)
    | some 2 => some (i : Int)
    | _ => test_loop_exists_aux pat rest (i + 1)

/-- Embeds `test_loop_exists` (lines 75-82): `some (-1)` = discard the new
pattern (substring), `some i` = replace the existing pattern at index `i`
(superstring), `none` = append as new. -/
def test_loop_exists (patternList : List (List MelodyNote))
    (pattern : List MelodyNote) : Option Int :=
  test_loop_exists_aux pattern patternList 0

/-- Default note for out-of-range indexing (never reached at the indices
the claims exercise; Python would raise IndexError there). -/
def dummyNote : MelodyNote := ⟨0, false, 0, 0, false, [], []⟩

/-- Python list indexing `melody_seq[i]`. -/
def nget (s : List MelodyNote) (i : Nat) : MelodyNote := s.getD i dummyNote

/-- Embeds the `corr_mat` matrix filled by `calc_correlation` (lines
121-143) as a total function.  Cells the loops never write (`i ≥ j` or
`j ≥ N`; the skipped last row `i = N-1` holds no cell with `i < j < N`)
keep their numpy zero. -/
def corr_mat (s : List MelodyNote) : Nat → Nat → Nat
  | 0, j => if 0 < j ∧ j < s.length ∧ note_eq (nget s 0) (nget s j) = true then 1 else 0
  | i + 1, j =>
    if i + 1 < j ∧ j < s.length ∧ note_eq (nget s (i + 1)) (nget s j) = true then
      corr_mat s i (j - 1) + 1
    else 0

/-- Embeds the `corr_dur` matrix of `calc_correlation` (lines 121-143),
accumulating tick durations along each run. -/
def corr_dur (s : List MelodyNote) : Nat → Nat → ℚ
  | 0, j =>
    if 0 < j ∧ j < s.length ∧ note_eq (nget s 0) (nget s j) = true then
      (nget s j).tick_duration
    else 0
  | i + 1, j =>
    if i + 1 < j ∧ j < s.length ∧ note_eq (nget s (i + 1)) (nget s j) = true then
      corr_dur s i (j - 1) + (nget s j).tick_duration
    else 0

/-- `np.where(corr_mat == min_len)` (line 147): row-major enumeration of
the matching cells. -/
def seed_cells (mat : Nat → Nat → Nat) (corrSize minLen : Nat) : List (Nat × Nat) :=
  (List.range corrSize).flatMap (fun x =>
    (List.range corrSize).filterMap (fun y =>
      if mat x y = minLen then some (x, y) else none))

/-- Beat-span filter over the seed cells (lines 149-159).  Python's
`x - corr_mat[x,y] + 1` is written `x + 1 - corr_mat x y`: the two agree
because a run ending at row `x` has length at most `x + 1`, and the Lean
form avoids the negative intermediate that Nat subtraction would clip. -/
def valid_seed_cells (s : List MelodyNote) (mat : Nat → Nat → Nat)
    (corrSize minLen : Nat) (minBeats maxBeats : ℚ) : List (Nat × Nat) :=
  (seed_cells mat corrSize minLen).filter (fun c =>
    let sx := c.1 + 1 - mat c.1 c.2
    let sy := c.2 + 1 - mat c.1 c.2
    let lb : ℚ := (((nget s sy).start_time - (nget s sx).start_time : Int) : ℚ) / 960
    decide (lb ≤ maxBeats ∧ minBeats ≤ lb))

/-- The diagonal-extension while loop of lines 165-169.  Fuel `corrSize`
bounds the loop: `x` strictly increases and must stay below `corrSize`,
so at most `corrSize - 1` iterations can run. -/
def extend_diagonal (mat : Nat → Nat → Nat) (corrSize : Nat) :
    Nat → Nat → Nat → Nat × Nat
  | 0, x, y => (x, y)
  | fuel + 1, x, y =>
    if x + 1 < corrSize ∧ y + 1 < corrSize ∧ mat x y < mat (x + 1) (y + 1) then
      extend_diagonal mat corrSize fuel (x + 1) (y + 1)
    else (x, y)

/-- The dedup insertion step of lines 176-182.  The source's
`elif exist_result > 0` guard is kept verbatim: a replacement index of 0
falls through and does nothing. -/
def insert_loop (loops : List (List MelodyNote)) (bps : List (Int × Int))
    (loop : List MelodyNote) (pts : Int × Int) :
    List (List MelodyNote) × List (Int × Int) :=
  match test_loop_exists loops loop with
  | none => (loops ++ [loop], bps ++ [pts])
  | some r => if 0 < r then (loops.set r.toNat loop, bps.set r.toNat pts) else (loops, bps)

/-- Embeds `get_valid_loops` (lines 146-184).  `mat`/`dur` are the
correlation matrices (passed as in the source), `corrSize` their shape. -/
def get_valid_loops (melodySeq : List MelodyNote) (mat : Nat → Nat → Nat)
    (dur : Nat → Nat → ℚ) (corrSize minLen : Nat)
    (minBeats maxBeats minRepBeats : ℚ) :
    List (List MelodyNote) × List (Int × Int) :=
  (valid_seed_cells melodySeq mat corrSize minLen minBeats maxBeats).foldl
    (fun acc c =>
      let e := extend_diagonal mat corrSize corrSize c.1 c.2
      let x := e.1
      let y := e.2
      let beginning := x + 1 - mat x y
      let dur0 := dur x y / 960
      let stop := y + 1 - mat x y
      let loop := (melodySeq.drop beginning).take (stop - beginning)
      if minRepBeats ≤ dur0 ∧ (nget melodySeq beginning).on_bar = true ∧
          is_empty_pattern loop = false then
        insert_loop acc.1 acc.2 loop
          ((nget melodySeq beginning).start_time, (nget melodySeq stop).start_time)
      else acc)
    ([], [])

/-- Concrete note for the C1 input: a quarter note at tick `p`. -/
def c1_note (p : Int) (pitch : String) : MelodyNote :=
  mk_melody_note 4 false p 0 [pitch] ["normal"]

/-- C1 failing input: six quarter notes A B A B A B at ticks 0..4800.
Only the first note sits on a bar start. -/
def c1_seq : List MelodyNote :=
  [c1_note 0 "1:5", c1_note 960 "1:7", c1_note 1920 "1:5",
   c1_note 2880 "1:7", c1_note 3840 "1:5", c1_note 4800 "1:7"]

/-- Claim C1 (code_bug evidence): on the six-note sequence A B A B A B with
its own correlation matrices and parameters min_len=2, min_beats=2,
max_beats=32, min_rep_beats=2, two candidates are accepted in order: first
the 2-note loop [A,B] (from seed (1,3), extended to the full diagonal),
then the 4-note superstring [A,B,A,B] (from seed (1,5)) whose first note
equals that of the accepted loop at index 0.  `test_loop_exists` reports
replacement index 0 (`some 0`), but `get_valid_loops` keeps the short
loop and its endpoints unchanged: the `exist_result > 0` guard drops the
superstring instead of replacing at index 0 as the claim states. -/
theorem c1_superstring_indexzero_dropped :
    get_valid_loops c1_seq (corr_mat c1_seq) (corr_dur c1_seq) 6 2 2 32 2 =
      ([c1_seq.take 2], [((0 : Int), (1920 : Int))]) ∧
    compare_patterns (c1_seq.take 4) (c1_seq.take 2) = some 2 ∧
    test_loop_exists [c1_seq.take 2] (c1_seq.take 4) = some 0 := by decide

def str_sub_aux (n : List Char) : List Char → Bool
  | [] => n.isEmpty
  | c :: rest => n.isPrefixOf (c :: rest) || str_sub_aux n rest

/-- Python's substring test `needle in hay`. -/
def hasSubstr (needle hay : String) : Bool :=
  str_sub_aux needle.toList hay.toList

/-- Python `t.split(":")[0]`: the characters before the first colon. -/
def instOf (t : String) : String :=
  String.mk (t.toList.takeWhile (fun c => !(c == ':')))

/-- Python `int(t[5:])` on a `wait:<digits>` token: the digits after the
first five characters.  Total: on the digit-only payloads the token
grammar allows this equals `int`; a malformed payload would raise in
Python and yields a junk value here. -/
def waitAmt (t : String) : Int :=
  ((t.toList.drop 5).foldl (fun a c => a * 10 + (c.toNat - 48)) 0 : Nat)

/-- The dict update `num_notes[instrument] += 1` / `= 1` on an insertion
ordered association list. -/
def bump : List (String × Nat) → String → List (String × Nat)
  | [], i => [(i, 1)]
  | (k, v) :: rest, i => if k = i then (k, v + 1) :: rest else (k, v) :: bump rest i

/-- `total_notes`: the sum over the per-instrument counts. -/
def sumCounts (m : List (String × Nat)) : Nat :=
  (m.map (fun kv => kv.2)).sum

/-- The per-window scanning loop of `filter_loops_density` (lines
193-210): accumulate note counts unconditionally, count `new_measure`
tokens whose timestamp lies in the window, advance the clock on `wait:`
tokens, and break once the clock reaches the window end. -/
def windowScan : List String → Int → Nat → List (String × Nat) → Int → Int →
    Nat × List (String × Nat)
  | [], _, nm, notes, _, _ => (nm, notes)
  | t :: rest, ts, nm, notes, p1, p2 =>
    let notes2 := if hasSubstr "note" t = true then bump notes (instOf t) else notes
    let nm2 := if p1 ≤ ts ∧ ts < p2 ∧ t = "new_measure" then nm + 1 else nm
    let ts2 := if hasSubstr "wait:" t = true then ts + waitAmt t else ts
    if p2 ≤ ts2 then (nm2, notes2) else windowScan rest ts2 nm2 notes2 p1 p2

/-- The density decision of `filter_loops_density` (lines 212-218):
`none` models the ZeroDivisionError when no instrument was counted;
`some true` means the window is kept (`curr_density >= density * num_meas`). -/
def window_check (toks : List String) (p : Int × Int) (d : ℚ) : Option Bool :=
  let r := windowScan toks 0 0 [] p.1 p.2
  if r.2.length = 0 then none
  else some (decide (d * (r.1 : ℚ) ≤ (sumCounts r.2 : ℚ) / (r.2.length : ℚ)))

def filter_go (toks : List String) (d : ℚ) : List (Int × Int) → Option (List (Int × Int))
  | [] => some []
  | p :: rest =>
    match window_check toks p d with
    | none => none
    | some true => (filter_go toks d rest).map (fun l => p :: l)
    | some false => filter_go toks d rest

/-- Embeds `filter_loops_density` (lines 187-220). -/
def filter_loops_density (toks : List String) (bps : List (Int × Int)) (d : ℚ) :
    Option (List (Int × Int)) :=
  if bps.isEmpty then some [] else filter_go toks d bps

/-- The per-window counting loop of `unify_loops` (lines 233-245).  It is
the `filter_loops_density` loop minus the `wait:` clock update: the
source omits it there, so the timestamp stays 0 for the whole pass. -/
def unifyScan : List String → Int → Nat → List (String × Nat) → Int → Int →
    Nat × List (String × Nat)
  | [], _, nm, notes, _, _ => (nm, notes)
  | t :: rest, ts, nm, notes, p1, p2 =>
    let notes2 := if hasSubstr "note" t = true then bump notes (instOf t) else notes
    let nm2 := if p1 ≤ ts ∧ ts < p2 ∧ t = "new_measure" then nm + 1 else nm
    if p2 ≤ ts then (nm2, notes2) else unifyScan rest ts nm2 notes2 p1 p2

/-- The density decision of `unify_loops` (lines 247-253): `none` models
the ZeroDivisionError; `some true` means the window is emitted
(the source skips it when `curr_density < density * num_meas`). -/
def unify_check (toks : List String) (p : Int × Int) (d : ℚ) : Option Bool :=
  let r := unifyScan toks 0 0 [] p.1 p.2
  if r.2.length = 0 then none
  else some (decide (¬ ((sumCounts r.2 : ℚ) / (r.2.length : ℚ) < d * (r.1 : ℚ))))

/-- The token-emission loop of `unify_loops` (lines 255-270), over
`token_list[4:]`. -/
def emit_window (numMeas : Nat) (p1 p2 : Int) : List String → Int → Nat → List String
  | [], _, _ => []
  | t :: rest, ts, mIdx =>
    let inWin := p1 ≤ ts ∧ ts < p2 ∧ hasSubstr "repeat" t = false
    let emit :=
      if inWin then
        if t = "new_measure" then
          [t] ++ (if mIdx = 0 then ["measure:repeat_open"] else []) ++
            (if mIdx + 1 = numMeas then ["measure:repeat_close:1"] else [])
        else [t]
      else []
    let mIdx2 := if inWin ∧ t = "new_measure" then mIdx + 1 else mIdx
    let ts2 := if hasSubstr "wait:" t = true then ts + waitAmt t else ts
    if p2 ≤ ts2 then emit else emit ++ emit_window numMeas p1 p2 rest ts2 mIdx2

def unify_go (toks : List String) (d : ℚ) : List (Int × Int) → Option (List String)
  | [] => some []
  | p :: rest =>
    match unify_check toks p d with
    | none => none
    | some false => unify_go toks d rest
    | some true =>
      let nm := (unifyScan toks 0 0 [] p.1 p.2).1
      (unify_go toks d rest).map (fun l => emit_window nm p.1 p.2 (toks.drop 4) 0 0 ++ l)

/-- Embeds `unify_loops` (lines 223-273): header, per-window emission for
windows passing the density rule, then one unconditional trailing
`measure:repeat_close:1` (line 272). -/
def unify_loops (toks : List String) (bps : List (Int × Int)) (d : ℚ) :
    Option (List String) :=
  if bps.isEmpty then some (toks.take 4)
  else (unify_go toks d bps).map
    (fun body => toks.take 4 ++ body ++ ["measure:repeat_close:1"])

/-- The portion of the token list the `filter_loops_density` window loop
actually processes: everything up to and including the token at which the
accumulated clock first reaches the window end. -/
def scanned_tokens : List String → Int → Int → List String
  | [], _, _ => []
  | t :: rest, ts, p2 =>
    let ts2 := if hasSubstr "wait:" t = true then ts + waitAmt t else ts
    if p2 ≤ ts2 then [t] else t :: scanned_tokens rest ts2 p2

/-- Per-instrument note counts of a token list, ignoring timestamps. -/
def note_counts_of (l : List String) : List (String × Nat) :=
  l.foldl (fun m t => if hasSubstr "note" t = true then bump m (instOf t) else m) []

/-- Reference count following the claim's words: note tokens whose
accumulated timestamp lies within the `[p1, p2)` window. -/
def in_window_notes : List String → Int → Int → Int → Nat
  | [], _, _, _ => 0
  | t :: rest, ts, p1, p2 =>
    let c := if hasSubstr "note" t = true ∧ p1 ≤ ts ∧ ts < p2 then 1 else 0
    let ts2 := if hasSubstr "wait:" t = true then ts + waitAmt t else ts
    c + in_window_notes rest ts2 p1 p2

/-- C2 failing input: a stream whose scanned portion holds no note token. -/
def c2_toks : List String := ["a", "b", "c", "d", "wait:100"]

/-- C3 counterexample input: three notes before the window, one inside. -/
def c3_toks : List String :=
  ["i0:note", "i0:note", "i0:note", "wait:960", "new_measure", "i0:note", "wait:960"]

/-- C4 counterexample input: one window that fails the density rule. -/
def c4_toks : List String :=
  ["h1", "h2", "h3", "h4", "new_measure", "i:note", "wait:960"]

/-- C7 witness input: the first window passes the density rule, the
second (two measures, same three notes) fails it. -/
def c7_toks : List String :=
  ["new_measure", "i:note", "i:note", "i:note", "wait:960", "new_measure", "wait:960"]

/-- Claim C2 (code_bug evidence): on a stream whose scanned portion
contains no note token, both `filter_loops_density` and `unify_loops`
reach `total_notes * 1.0 / len(num_notes)` with an empty dict and raise
ZeroDivisionError (modelled `none`) instead of treating the density as 0
and rejecting the window. -/
theorem c2_zero_instrument_division :
    filter_loops_density c2_toks [((0 : Int), 50)] 3 = none ∧
    unify_loops c2_toks [((0 : Int), 50)] 3 = none := by decide

/-- Claim C3 counterexample: for the window (960, 1920) on `c3_toks`, the
code's note count is 4 (the three notes at tick 0, before the window,
are counted) while only one note token lies inside the window; the
window is accepted although the in-window density 1 is below
3 × (1 measure).  So the computed density does not exclude notes before
the window start. -/
theorem c3_prewindow_notes_counted :
    filter_loops_density c3_toks [((960 : Int), 1920)] 3 = some [((960 : Int), 1920)] ∧
    (windowScan c3_toks 0 0 [] 960 1920).1 = 1 ∧
    sumCounts (windowScan c3_toks 0 0 [] 960 1920).2 = 4 ∧
    in_window_notes c3_toks 0 960 1920 = 1 ∧
    ¬ sumCounts (windowScan c3_toks 0 0 [] 960 1920).2 =
        in_window_notes c3_toks 0 960 1920 := by decide

lemma windowScan_notes_eq (toks : List String) : ∀ (ts : Int) (nm : Nat)
    (notes : List (String × Nat)) (p1 p2 : Int),
    (windowScan toks ts nm notes p1 p2).2 =
      (scanned_tokens toks ts p2).foldl
        (fun m t => if hasSubstr "note" t = true then bump m (instOf t) else m) notes := by
  induction toks with
  | nil => intro ts nm notes p1 p2; simp [windowScan, scanned_tokens]
  | cons t rest ih =>
    intro ts nm notes p1 p2
    simp only [windowScan, scanned_tokens]
    by_cases h : p2 ≤ (if hasSubstr "wait:" t = true then ts + waitAmt t else ts)
    · simp [h]
    · simp [h, ih]

lemma bump_sum (i : String) : ∀ m : List (String × Nat),
    sumCounts (bump m i) = sumCounts m + 1 := by
  intro m
  induction m with
  | nil => simp [bump, sumCounts]
  | cons kv rest ih =>
    obtain ⟨k, v⟩ := kv
    by_cases h : k = i
    · simp only [bump, if_pos h, sumCounts, List.map_cons, List.sum_cons]
      omega
    · simp only [bump, if_neg h, sumCounts, List.map_cons, List.sum_cons] at ih ⊢
      omega

lemma foldl_note_step_sum : ∀ (l : List String) (acc : List (String × Nat)),
    sumCounts (l.foldl
        (fun m t => if hasSubstr "note" t = true then bump m (instOf t) else m) acc) =
      sumCounts acc + (l.filter (fun t => hasSubstr "note" t)).length := by
  intro l
  induction l with
  | nil => intro acc; simp
  | cons t rest ih =>
    intro acc
    by_cases h : hasSubstr "note" t = true
    · simp only [List.foldl_cons, List.filter_cons, h, if_true, List.length_cons]
      rw [ih]
      rw [bump_sum]
      omega
    · simp only [List.foldl_cons, List.filter_cons, h]
      rw [ih]
      simp [h]

/-- Claim C3, amended: the per-instrument note counts computed by the
density pass of `filter_loops_density` are exactly the counts over the
whole scanned portion of the stream (every token until the clock first
reaches `end_tick`), independent of `start_tick` — note tokens before the
window's start are included — and the total is the number of note tokens
in that portion. -/
theorem c3_counts_scanned_portion (toks : List String) (p1 p2 : Int) :
    (windowScan toks 0 0 [] p1 p2).2 = note_counts_of (scanned_tokens toks 0 p2) ∧
    sumCounts (note_counts_of (scanned_tokens toks 0 p2)) =
      ((scanned_tokens toks 0 p2).filter (fun t => hasSubstr "note" t)).length := by
  constructor
  · exact windowScan_notes_eq toks 0 0 [] p1 p2
  · have h := foldl_note_step_sum (scanned_tokens toks 0 p2) []
    simpa [note_counts_of, sumCounts] using h

/-- Claim C4 counterexample: `c4_toks` with the single window (0, 960),
which fails the density rule (1 note against 3 × 1 measure), makes
`unify_loops` return the four header tokens **plus** a trailing
`measure:repeat_close:1` (line 272 appends it unconditionally), not the
header alone as the claim states. -/
theorem c4_trailing_close_token :
    unify_check c4_toks ((0 : Int), 960) 3 = some false ∧
    unify_loops c4_toks [((0 : Int), 960)] 3 =
      some ["h1", "h2", "h3", "h4", "measure:repeat_close:1"] ∧
    ¬ (["h1", "h2", "h3", "h4", "measure:repeat_close:1"] = c4_toks.take 4) := by decide

/-- Claim C4, amended: with an empty window list `unify_loops` returns
exactly the first 4 tokens; with a non-empty list in which every window
fails its density rule it returns the first 4 tokens plus a single
trailing `measure:repeat_close:1`. -/
theorem c4_no_accepted_windows (toks : List String) (bps : List (Int × Int)) (d : ℚ)
    (h : ∀ p ∈ bps, unify_check toks p d = some false) :
    unify_loops toks bps d =
      some (if bps.isEmpty then toks.take 4
            else toks.take 4 ++ ["measure:repeat_close:1"]) := by
  have hgo : ∀ l : List (Int × Int), (∀ q ∈ l, unify_check toks q d = some false) →
      unify_go toks d l = some [] := by
    intro l
    induction l with
    | nil => intro _; rfl
    | cons q qs ih =>
      intro hq
      simp only [unify_go]
      rw [hq q (by simp)]
      exact ih (fun r hr => hq r (by simp [hr]))
  cases bps with
  | nil => simp [unify_loops]
  | cons p rest =>
    simp [unify_loops, hgo _ h]

/-- Witness for C4: the amended statement applied to the concrete failing
window of `c4_toks`. -/
theorem c4_no_accepted_windows_witness :
    unify_check c4_toks ((0 : Int), 960) 3 = some false ∧
    unify_loops c4_toks [((0 : Int), 960)] 3 =
      some (if ([((0 : Int), (960 : Int))] : List (Int × Int)).isEmpty then c4_toks.take 4
            else c4_toks.take 4 ++ ["measure:repeat_close:1"]) :=
  ⟨by decide, c4_no_accepted_windows c4_toks [((0 : Int), 960)] 3 (by decide)⟩

/-- Claim C7: `filter_loops_density` is idempotent — whenever a call
returns a window list (no division fault), filtering that output again
with the same token stream and threshold returns it unchanged. -/
theorem c7_density_filter_idem (toks : List String) (bps out : List (Int × Int)) (d : ℚ)
    (h : filter_loops_density toks bps d = some out) :
    filter_loops_density toks out d = some out := by
  have hgo : ∀ (l res : List (Int × Int)), filter_go toks d l = some res →
      filter_go toks d res = some res := by
    intro l
    induction l with
    | nil =>
      intro res h0
      simp only [filter_go] at h0
      obtain rfl : ([] : List (Int × Int)) = res := Option.some.inj h0
      rfl
    | cons p rest ih =>
      intro res h0
      simp only [filter_go] at h0
      cases hc : window_check toks p d with
      | none => rw [hc] at h0; exact absurd h0 (by simp)
      | some b =>
        rw [hc] at h0
        cases b with
        | false => exact ih res h0
        | true =>
          obtain ⟨res2, hrest, hres⟩ := Option.map_eq_some'.1 h0
          subst hres
          simp only [filter_go, hc]
          rw [ih res2 hrest]
          rfl
  by_cases hb : bps.isEmpty
  · rw [filter_loops_density, if_pos hb] at h
    obtain rfl : ([] : List (Int × Int)) = out := Option.some.inj h
    rfl
  · rw [filter_loops_density, if_neg hb] at h
    cases out with
    | nil => rfl
    | cons q qs =>
      rw [filter_loops_density, if_neg (by simp)]
      exact hgo bps (q :: qs) h

/-- Witness for C7: filtering `c7_toks` keeps the first window and drops
the second; re-filtering the output returns it unchanged. -/
theorem c7_density_filter_idem_witness :
    filter_loops_density c7_toks [((0 : Int), 960), ((0 : Int), 1920)] 3 =
      some [((0 : Int), 960)] ∧
    filter_loops_density c7_toks [((0 : Int), 960)] 3 = some [((0 : Int), 960)] :=
  ⟨by decide,
   c7_density_filter_idem c7_toks [((0 : Int), 960), ((0 : Int), 1920)]
     [((0 : Int), 960)] 3 (by decide)⟩

/-- One region record of the bracket scan: the key of `endpoint_dict`
(`start`), its value (`stop`, -1 while unresolved), and the
`length_dict` pair (`meas`, `dens`; junk (0, 0) until resolution, the
source only reads them for resolved regions). -/
structure RegEntry where
  start : Nat
  stop : Int
  meas : Nat
  dens : ℚ
deriving DecidableEq

/-- The mutable state of the scanning loop shared by `get_repeats`
(lines 325-359) and `get_num_repeats` (lines 386-420): measure count
since the last open, per-instrument note counts, the stack of open
region start indices, and the merged endpoint/length dicts in insertion
order. -/
structure RepState where
  curLen : Nat
  curNotes : List (String × Nat)
  openReps : List Nat
  entries : List RegEntry
deriving DecidableEq

def initRepState : RepState := ⟨0, [], [], []⟩

/-- `endpoint_dict[idx] = i; length_dict[idx] = (len, dens)`: update the
(unique) entry keyed `idx` in place. -/
def resolveEntry (es : List RegEntry) (idx i : Nat) (len : Nat) (dens : ℚ) :
    List RegEntry :=
  es.map (fun e => if e.start = idx then ⟨idx, (i : Int), len, dens⟩ else e)

/-- One iteration of the scanning loop, on current token `t` and
lookaheads `t1 = list_words[i+1]`, `t2 = list_words[i+2]` (lines
331-359 = 391-420; the two functions contain the identical loop). -/
def rep_step_core (t t1 t2 : String) (i : Nat) (st : RepState) : RepState :=
  let stA := if hasSubstr "note" t = true then
      ⟨st.curLen, bump st.curNotes (instOf t), st.openReps, st.entries⟩ else st
  if t = "new_measure" then
    let stB : RepState := ⟨stA.curLen + 1, stA.curNotes, stA.openReps, stA.entries⟩
    let stC : RepState :=
      if t1 = "measure:repeat_open" then
        ⟨1, [], stB.openReps ++ [i], stB.entries ++ [⟨i, -1, 0, 0⟩]⟩
      else stB
    if hasSubstr "measure:repeat_close" t1 = true ∨
        hasSubstr "measure:repeat_close" t2 = true then
      let dens : ℚ := if stC.curNotes.length = 0 then 0
        else (sumCounts stC.curNotes : ℚ) / (stC.curNotes.length : ℚ)
      match stC.openReps.getLast? with
      | some idx =>
        ⟨stC.curLen, stC.curNotes, stC.openReps.dropLast,
          resolveEntry stC.entries idx i stC.curLen dens⟩
      | none =>
        if stC.entries.length = 0 then
          ⟨stC.curLen, stC.curNotes, stC.openReps, [⟨0, (i : Int), stC.curLen, dens⟩]⟩
        else stC
    else stC
  else stA

def rep_step (lw : List String) (st : RepState) (i : Nat) : RepState :=
  rep_step_core (lw.getD i "") (lw.getD (i + 1) "") (lw.getD (i + 2) "") i st

/-- The full scan `for i in range(num_words - 2)` producing the region
records, shared verbatim by `get_repeats` and `get_num_repeats`. -/
def scan_repeats (lw : List String) : List RegEntry :=
  ((List.range (lw.length - 2)).foldl (rep_step lw) initRepState).entries

/-- The keep test of the final loops (lines 366-371 and 425-430), as the
source writes it: skip when `end <= 0`, skip when the length bounds or
the density rule fail. -/
def keep_entry (minMeas maxMeas : Nat) (d : ℚ) (e : RegEntry) : Bool :=
  decide (¬ e.stop ≤ 0 ∧ ¬ (e.meas < minMeas ∨ maxMeas < e.meas ∨ e.dens < d * (e.meas : ℚ)))

/-- The counting loop of `get_num_repeats` (lines 422-432). -/
def count_repeats (minMeas maxMeas : Nat) (d : ℚ) : List RegEntry → Nat
  | [] => 0
  | e :: rest =>
    if e.stop ≤ 0 then count_repeats minMeas maxMeas d rest
    else if e.meas < minMeas ∨ maxMeas < e.meas ∨ e.dens < d * (e.meas : ℚ) then
      count_repeats minMeas maxMeas d rest
    else count_repeats minMeas maxMeas d rest + 1

/-- The `while` of lines 374-377: advance `end` to the next
`new_measure` token or the stream end.  The fuel `lw.length` bounds the
loop, which increments `e` only while `e < lw.length`. -/
def advance_end_aux (lw : List String) : Nat → Nat → Nat
  | 0, e => e
  | fuel + 1, e =>
    if e < lw.length then
      (if lw.getD e "" = "new_measure" then e else advance_end_aux lw fuel (e + 1))
    else e

def advance_end (lw : List String) (e : Nat) : Nat := advance_end_aux lw lw.length e

/-- Tokens contributed by one kept region (lines 373-379):
`list_words[start:end]` after advancing `end` past the region's last
measure. -/
def segment_of (lw : List String) (e : RegEntry) : List String :=
  let e2 := advance_end lw (e.stop.toNat + 1)
  if e.start < e2 then (lw.drop e.start).take (e2 - e.start) else []

/-- The collection loop of `get_repeats` (lines 361-379). -/
def collect_repeats (lw : List String) (minMeas maxMeas : Nat) (d : ℚ) :
    List RegEntry → List String
  | [] => []
  | e :: rest =>
    if e.stop ≤ 0 then collect_repeats lw minMeas maxMeas d rest
    else if e.meas < minMeas ∨ maxMeas < e.meas ∨ e.dens < d * (e.meas : ℚ) then
      collect_repeats lw minMeas maxMeas d rest
    else segment_of lw e ++ collect_repeats lw minMeas maxMeas d rest

/-- Embeds `get_repeats` (lines 323-381). -/
def get_repeats (lw : List String) (minMeas maxMeas : Nat) (d : ℚ) : List String :=
  collect_repeats lw minMeas maxMeas d (scan_repeats lw)

/-- Embeds `get_num_repeats` (lines 384-434); its scanning loop is the
same code as in `get_repeats`, embedded once as `scan_repeats`. -/
def get_num_repeats (lw : List String) (minMeas maxMeas : Nat) (d : ℚ) : Nat :=
  count_repeats minMeas maxMeas d (scan_repeats lw)

/-- C6 counterexample input: a repeat region opened at index 0 and
resolved at index 0. -/
def c6_toks : List String :=
  ["new_measure", "measure:repeat_open", "measure:repeat_close:1"]

lemma keep_entry_iff (m M : Nat) (d : ℚ) (e : RegEntry) :
    keep_entry m M d e =
      decide (0 < e.stop ∧ m ≤ e.meas ∧ e.meas ≤ M ∧ d * (e.meas : ℚ) ≤ e.dens) := by
  rw [keep_entry, decide_eq_decide]
  push_neg
  tauto

lemma count_eq_filter (m M : Nat) (d : ℚ) : ∀ es : List RegEntry,
    count_repeats m M d es = (es.filter (keep_entry m M d)).length := by
  intro es
  induction es with
  | nil => rfl
  | cons e rest ih =>
    by_cases h1 : e.stop ≤ 0
    · have hk : keep_entry m M d e = false := by simp [keep_entry, h1]
      simp [count_repeats, h1, List.filter_cons, hk, ih]
    · by_cases h2 : e.meas < m ∨ M < e.meas ∨ e.dens < d * (e.meas : ℚ)
      · have hk : keep_entry m M d e = false := by simp [keep_entry, h2]
        simp [count_repeats, h1, h2, List.filter_cons, hk, ih]
      · have hk : keep_entry m M d e = true := by simp [keep_entry, h1, h2]
        simp [count_repeats, h1, h2, List.filter_cons, hk, ih]

lemma collect_eq_filter (lw : List String) (m M : Nat) (d : ℚ) : ∀ es : List RegEntry,
    collect_repeats lw m M d es =
      ((es.filter (keep_entry m M d)).map (segment_of lw)).flatten := by
  intro es
  induction es with
  | nil => rfl
  | cons e rest ih =>
    by_cases h1 : e.stop ≤ 0
    · have hk : keep_entry m M d e = false := by simp [keep_entry, h1]
      simp [collect_repeats, h1, List.filter_cons, hk, ih]
    · by_cases h2 : e.meas < m ∨ M < e.meas ∨ e.dens < d * (e.meas : ℚ)
      · have hk : keep_entry m M d e = false := by simp [keep_entry, h2]
        simp [collect_repeats, h1, h2, List.filter_cons, hk, ih]
      · have hk : keep_entry m M d e = true := by simp [keep_entry, h1, h2]
        simp [collect_repeats, h1, h2, List.filter_cons, hk, ih]

/-- Claim C9: `get_repeats` and `get_num_repeats` run the same scan and
the same keep rule, so the count returned by `get_num_repeats` is exactly
the number of kept-region segments whose concatenation `get_repeats`
returns. -/
theorem c9_repeats_count_matches_tokens (lw : List String) (m M : Nat) (d : ℚ) :
    get_repeats lw m M d =
      (((scan_repeats lw).filter (keep_entry m M d)).map (segment_of lw)).flatten ∧
    get_num_repeats lw m M d =
      (((scan_repeats lw).filter (keep_entry m M d)).map (segment_of lw)).length := by
  constructor
  · exact collect_eq_filter lw m M d (scan_repeats lw)
  · rw [get_num_repeats, count_eq_filter]
    simp

/-- Claim C6 counterexample: on `c6_toks` (a region opened and resolved
at stream index 0) with min_meas = 1, max_meas = 16, density = 0, the
scan records the resolved region (start 0, end 0, 1 measure, density 0),
which satisfies 1 ≤ 1 ≤ 16 and 0 ≥ 0 × 1, yet `get_num_repeats` counts
nothing and `get_repeats` emits nothing: the `end <= 0` skip also drops
a region resolved at index 0, so the claimed iff fails. -/
theorem c6_end_zero_region_skipped :
    scan_repeats c6_toks = [⟨0, 0, 1, 0⟩] ∧
    ((scan_repeats c6_toks).filter (fun x =>
      decide (0 ≤ x.stop ∧ 1 ≤ x.meas ∧ x.meas ≤ 16 ∧
        (0 : ℚ) * (x.meas : ℚ) ≤ x.dens))).length = 1 ∧
    get_num_repeats c6_toks 1 16 0 = 0 ∧
    get_repeats c6_toks 1 16 0 = [] := by decide

/-- Claim C6, amended: a scanned region is kept by `get_repeats` and
counted by `get_num_repeats` iff its resolved end index is strictly
positive and min_meas ≤ measure_length ≤ max_meas (both inclusive) and
note_density ≥ density × measure_length; a region resolved at index 0 is
skipped even when the bounds hold. -/
theorem c6_keep_rule (lw : List String) (m M : Nat) (d : ℚ) (e : RegEntry) :
    get_num_repeats lw m M d =
      ((scan_repeats lw).filter (fun x =>
        decide (0 < x.stop ∧ m ≤ x.meas ∧ x.meas ≤ M ∧
          d * (x.meas : ℚ) ≤ x.dens))).length ∧
    get_repeats lw m M d =
      (((scan_repeats lw).filter (fun x =>
        decide (0 < x.stop ∧ m ≤ x.meas ∧ x.meas ≤ M ∧
          d * (x.meas : ℚ) ≤ x.dens))).map (segment_of lw)).flatten ∧
    keep_entry m M d e =
      decide (0 < e.stop ∧ m ≤ e.meas ∧ e.meas ≤ M ∧ d * (e.meas : ℚ) ≤ e.dens) := by
  have hfun : (fun x => decide (0 < x.stop ∧ m ≤ x.meas ∧ x.meas ≤ M ∧
      d * (x.meas : ℚ) ≤ x.dens)) = keep_entry m M d :=
    funext fun x => (keep_entry_iff m M d x).symm
  refine ⟨?_, ?_, keep_entry_iff m M d e⟩
  · rw [get_num_repeats, count_eq_filter, hfun]
  · rw [hfun]
    exact collect_eq_filter lw m M d (scan_repeats lw)

/-- C8 concrete input: an opened repeat region never closed before the
stream ends. -/
def c8_toks : List String :=
  ["new_measure", "measure:repeat_open", "i:note", "i:note", "wait:480", "pad", "pad2"]

lemma count_drop_unresolved (m M : Nat) (d : ℚ) : ∀ es : List RegEntry,
    count_repeats m M d (es.filter (fun e => decide (e.stop ≠ -1))) =
      count_repeats m M d es := by
  intro es
  simp only [ne_eq, decide_not]
  induction es with
  | nil => rfl
  | cons e rest ih =>
    by_cases hm : e.stop = -1
    · have h0 : e.stop ≤ 0 := by rw [hm]; decide
      simp [List.filter_cons, hm, count_repeats, h0, ih]
    · by_cases h1 : e.stop ≤ 0
      · simp [List.filter_cons, hm, count_repeats, h1, ih]
      · by_cases h2 : e.meas < m ∨ M < e.meas ∨ e.dens < d * (e.meas : ℚ)
        · simp [List.filter_cons, hm, count_repeats, h1, h2, ih]
        · simp [List.filter_cons, hm, count_repeats, h1, h2, ih]

lemma collect_drop_unresolved (lw : List String) (m M : Nat) (d : ℚ) :
    ∀ es : List RegEntry,
    collect_repeats lw m M d (es.filter (fun e => decide (e.stop ≠ -1))) =
      collect_repeats lw m M d es := by
  intro es
  simp only [ne_eq, decide_not]
  induction es with
  | nil => rfl
  | cons e rest ih =>
    by_cases hm : e.stop = -1
    · have h0 : e.stop ≤ 0 := by rw [hm]; decide
      simp [List.filter_cons, hm, collect_repeats, h0, ih]
    · by_cases h1 : e.stop ≤ 0
      · simp [List.filter_cons, hm, collect_repeats, h1, ih]
      · by_cases h2 : e.meas < m ∨ M < e.meas ∨ e.dens < d * (e.meas : ℚ)
        · simp [List.filter_cons, hm, collect_repeats, h1, h2, ih]
        · simp [List.filter_cons, hm, collect_repeats, h1, h2, ih]

/-- Claim C8: regions whose endpoint stays -1 (opened, never closed) are
silently dropped — removing them from the scanned record list changes
neither the count of `get_num_repeats` nor the tokens of `get_repeats`,
and neither function can fail.  Concretely, `c8_toks` leaves one
unresolved region and both outputs are empty even with the loosest
bounds. -/
theorem c8_unresolved_regions_dropped (lw : List String) (m M : Nat) (d : ℚ) :
    get_num_repeats lw m M d =
      count_repeats m M d ((scan_repeats lw).filter (fun e => decide (e.stop ≠ -1))) ∧
    get_repeats lw m M d =
      collect_repeats lw m M d ((scan_repeats lw).filter (fun e => decide (e.stop ≠ -1))) ∧
    scan_repeats c8_toks = [⟨0, -1, 0, 0⟩] ∧
    get_num_repeats c8_toks 1 16 0 = 0 ∧
    get_repeats c8_toks 1 16 0 = [] := by
  refine ⟨?_, ?_, by decide, by decide, by decide⟩
  · rw [get_num_repeats, count_drop_unresolved]
  · rw [get_repeats, collect_drop_unresolved]

lemma getD_ge (l : List String) : ∀ (k : Nat) (d : String), l.length ≤ k →
    l.getD k d = d := by
  induction l with
  | nil => intro k d _; simp
  | cons a tl ih =>
    intro k d h
    cases k with
    | zero => simp at h
    | succ k2 =>
      simp only [List.getD_cons_succ]
      exact ih k2 d (by simpa using h)

lemma getD_set_ne (l : List String) : ∀ (k i : Nat) (v d : String), i ≠ k →
    (l.set k v).getD i d = l.getD i d := by
  induction l with
  | nil => intro k i v d _; simp
  | cons a tl ih =>
    intro k i v d h
    cases k with
    | zero =>
      cases i with
      | zero => exact absurd rfl h
      | succ i2 => simp [List.set]
    | succ k2 =>
      cases i with
      | zero => simp [List.set]
      | succ i2 =>
        simp only [List.set, List.getD_cons_succ]
        exact ih k2 i2 v d (by omega)

lemma getD_set_self (l : List String) : ∀ (k : Nat) (v d : String), k < l.length →
    (l.set k v).getD k d = v := by
  induction l with
  | nil => intro k v d h; simp at h
  | cons a tl ih =>
    intro k v d h
    cases k with
    | zero => simp [List.set]
    | succ k2 =>
      simp only [List.set, List.getD_cons_succ]
      exact ih k2 v d (by simpa using h)

lemma rep_step_core_congr (t t1 t1' t2 t2' : String) (i : Nat) (st : RepState)
    (h1 : (t1 = "measure:repeat_open") = (t1' = "measure:repeat_open"))
    (h2 : hasSubstr "measure:repeat_close" t1 = hasSubstr "measure:repeat_close" t1')
    (h3 : hasSubstr "measure:repeat_close" t2 = hasSubstr "measure:repeat_close" t2') :
    rep_step_core t t1 t2 i st = rep_step_core t t1' t2' i st := by
  rw [rep_step_core, rep_step_core]
  simp only [h1, h2, h3]

lemma foldl_rep_congr (f g : RepState → Nat → RepState) : ∀ (l : List Nat) (st : RepState),
    (∀ st2 i, i ∈ l → f st2 i = g st2 i) → l.foldl f st = l.foldl g st := by
  intro l
  induction l with
  | nil => intro st _; rfl
  | cons a tl ih =>
    intro st h
    simp only [List.foldl_cons]
    rw [h st a (by simp)]
    exact ih (g st a) (fun st2 i hi => h st2 i (by simp [hi]))

/-- Claim C10: the scanning loops run `for i in range(num_words - 2)`, so
a `new_measure` token sitting at one of the last two stream positions is
never the current token: replacing it by an inert token `"x"` leaves the
scanned regions, hence also `get_num_repeats`, unchanged — it is never
counted as a measure and never opens or closes a repeat region. -/
theorem c10_last_two_tokens_inert (lw : List String) (k m M : Nat) (d : ℚ)
    (hk : lw.length ≤ k + 2) (hm : lw.getD k "" = "new_measure") :
    scan_repeats (lw.set k "x") = scan_repeats lw ∧
    get_num_repeats (lw.set k "x") m M d = get_num_repeats lw m M d := by
  have hk_lt : k < lw.length := by
    by_contra hge
    push_neg at hge
    rw [getD_ge lw k "" hge] at hm
    exact absurd hm (by decide)
  have hopen : (("x" : String) = "measure:repeat_open") =
      (("new_measure" : String) = "measure:repeat_open") := by
    simp only [eq_iff_iff]
    constructor
    · intro h; exact absurd h (by decide)
    · intro h; exact absurd h (by decide)
  have hclose : hasSubstr "measure:repeat_close" "x" =
      hasSubstr "measure:repeat_close" "new_measure" := by decide
  have hscan : scan_repeats (lw.set k "x") = scan_repeats lw := by
    rw [scan_repeats, scan_repeats, List.length_set]
    have hsteps : ∀ st2 i, i ∈ List.range (lw.length - 2) →
        rep_step (lw.set k "x") st2 i = rep_step lw st2 i := by
      intro st2 i hi
      have hi2 : i < lw.length - 2 := List.mem_range.1 hi
      rw [rep_step, rep_step]
      rw [getD_set_ne lw k i "x" "" (by omega)]
      by_cases e1 : i + 1 = k
      · have hv1 : (lw.set k "x").getD (i + 1) "" = "x" := by
          rw [e1]; exact getD_set_self lw k "x" "" hk_lt
        have ho1 : lw.getD (i + 1) "" = "new_measure" := by rw [e1, hm]
        have e2 : i + 2 ≠ k := by omega
        rw [getD_set_ne lw k (i + 2) "x" "" e2, hv1]
        exact rep_step_core_congr _ _ _ _ _ i st2
          (by rw [ho1]; exact hopen) (by rw [ho1]; exact hclose) rfl
      · rw [getD_set_ne lw k (i + 1) "x" "" e1]
        by_cases e2 : i + 2 = k
        · have hv2 : (lw.set k "x").getD (i + 2) "" = "x" := by
            rw [e2]; exact getD_set_self lw k "x" "" hk_lt
          have ho2 : lw.getD (i + 2) "" = "new_measure" := by rw [e2, hm]
          rw [hv2]
          exact rep_step_core_congr _ _ _ _ _ i st2 rfl rfl (by rw [ho2]; exact hclose)
        · rw [getD_set_ne lw k (i + 2) "x" "" e2]
    rw [foldl_rep_congr (rep_step (lw.set k "x")) (rep_step lw)
      (List.range (lw.length - 2)) initRepState hsteps]
  exact ⟨hscan, by rw [get_num_repeats, get_num_repeats, hscan]⟩

/-- Witness for C10: a stream ending in `new_measure`; replacing that last
token leaves the scan and the count unchanged. -/
theorem c10_last_two_tokens_inert_witness :
    (["new_measure", "measure:repeat_open", "measure:repeat_close:1", "new_measure",
      "new_measure"] : List String).length ≤ 4 + 2 ∧
    (["new_measure", "measure:repeat_open", "measure:repeat_close:1", "new_measure",
      "new_measure"] : List String).getD 4 "" = "new_measure" ∧
    (scan_repeats ((["new_measure", "measure:repeat_open", "measure:repeat_close:1",
        "new_measure", "new_measure"] : List String).set 4 "x") =
      scan_repeats ["new_measure", "measure:repeat_open", "measure:repeat_close:1",
        "new_measure", "new_measure"] ∧
     get_num_repeats ((["new_measure", "measure:repeat_open", "measure:repeat_close:1",
        "new_measure", "new_measure"] : List String).set 4 "x") 4 16 8 =
      get_num_repeats ["new_measure", "measure:repeat_open", "measure:repeat_close:1",
        "new_measure", "new_measure"] 4 16 8) :=
  ⟨by decide, by decide,
   c10_last_two_tokens_inert
     ["new_measure", "measure:repeat_open", "measure:repeat_close:1", "new_measure",
      "new_measure"] 4 4 16 8 (by decide) (by decide)⟩

/-- Element-wise equality of two note windows under `MelodyNote.__eq__`. -/
def pat_eq : List MelodyNote → List MelodyNote → Bool
  | [], [] => true
  | a :: p, b :: q => note_eq a b && pat_eq p q
  | _, _ => false

lemma mat_zero_dur (s : List MelodyNote) (i j : Nat) (h : corr_mat s i j = 0) :
    corr_dur s i j = 0 := by
  cases i with
  | zero =>
    by_cases hg : 0 < j ∧ j < s.length ∧ note_eq (nget s 0) (nget s j) = true
    · rw [corr_mat, if_pos hg] at h
      exact absurd h (by decide)
    · rw [corr_dur, if_neg hg]
  | succ i2 =>
    by_cases hg : i2 + 1 < j ∧ j < s.length ∧ note_eq (nget s (i2 + 1)) (nget s j) = true
    · rw [corr_mat, if_pos hg] at h
      omega
    · rw [corr_dur, if_neg hg]

lemma corr_aux (s : List MelodyNote) : ∀ i j, 0 < corr_mat s i j →
    note_eq (nget s i) (nget s j) = true ∧
    corr_mat s i j ≤ i + 1 ∧ i < j ∧ j < s.length ∧
    (∀ m, m < corr_mat s i j →
      note_eq (nget s (i + 1 - corr_mat s i j + m))
        (nget s (j + 1 - corr_mat s i j + m)) = true) ∧
    corr_dur s i j = ∑ m in Finset.range (corr_mat s i j),
      (nget s (j + 1 - corr_mat s i j + m)).tick_duration := by
  intro i
  induction i with
  | zero =>
    intro j h
    by_cases hg : 0 < j ∧ j < s.length ∧ note_eq (nget s 0) (nget s j) = true
    case neg => rw [corr_mat, if_neg hg] at h; exact absurd h (by decide)
    have hmat : corr_mat s 0 j = 1 := by rw [corr_mat, if_pos hg]
    have hdur : corr_dur s 0 j = (nget s j).tick_duration := by rw [corr_dur, if_pos hg]
    rw [hmat]
    refine ⟨hg.2.2, by omega, hg.1, hg.2.1, ?_, ?_⟩
    · intro m hm
      interval_cases m
      have e1 : 0 + 1 - 1 + 0 = 0 := by omega
      have e2 : j + 1 - 1 + 0 = j := by omega
      rw [e1, e2]
      exact hg.2.2
    · rw [hdur, Finset.sum_range_one]
      have e2 : j + 1 - 1 + 0 = j := by omega
      rw [e2]
  | succ i2 ih =>
    intro j h
    by_cases hg : i2 + 1 < j ∧ j < s.length ∧ note_eq (nget s (i2 + 1)) (nget s j) = true
    case neg => rw [corr_mat, if_neg hg] at h; exact absurd h (by decide)
    have hmat : corr_mat s (i2 + 1) j = corr_mat s i2 (j - 1) + 1 := by
      rw [corr_mat, if_pos hg]
    have hdur : corr_dur s (i2 + 1) j = corr_dur s i2 (j - 1) + (nget s j).tick_duration := by
      rw [corr_dur, if_pos hg]
    by_cases hz : corr_mat s i2 (j - 1) = 0
    · have hmat1 : corr_mat s (i2 + 1) j = 1 := by rw [hmat, hz]
      have hdur1 : corr_dur s (i2 + 1) j = (nget s j).tick_duration := by
        rw [hdur, mat_zero_dur s i2 (j - 1) hz, zero_add]
      rw [hmat1]
      refine ⟨hg.2.2, by omega, hg.1, hg.2.1, ?_, ?_⟩
      · intro m hm
        interval_cases m
        have e1 : i2 + 1 + 1 - 1 + 0 = i2 + 1 := by omega
        have e2 : j + 1 - 1 + 0 = j := by omega
        rw [e1, e2]
        exact hg.2.2
      · rw [hdur1, Finset.sum_range_one]
        have e2 : j + 1 - 1 + 0 = j := by omega
        rw [e2]
    · have hzpos : 0 < corr_mat s i2 (j - 1) := Nat.pos_of_ne_zero hz
      obtain ⟨hEq, hK, hij, hjl, hwin, hdur2⟩ := ih (j - 1) hzpos
      have hj1 : 1 ≤ j := by omega
      rw [hmat]
      refine ⟨hg.2.2, by omega, hg.1, hg.2.1, ?_, ?_⟩
      · intro m hm
        by_cases hmk : m = corr_mat s i2 (j - 1)
        · subst hmk
          have e1 : i2 + 1 + 1 - (corr_mat s i2 (j - 1) + 1) + corr_mat s i2 (j - 1) =
              i2 + 1 := by omega
          have e2 : j + 1 - (corr_mat s i2 (j - 1) + 1) + corr_mat s i2 (j - 1) = j := by
            omega
          rw [e1, e2]
          exact hg.2.2
        · have hmlt : m < corr_mat s i2 (j - 1) := by omega
          have hw := hwin m hmlt
          have e1 : i2 + 1 + 1 - (corr_mat s i2 (j - 1) + 1) + m =
              i2 + 1 - corr_mat s i2 (j - 1) + m := by omega
          have e2 : j + 1 - (corr_mat s i2 (j - 1) + 1) + m =
              j - 1 + 1 - corr_mat s i2 (j - 1) + m := by omega
          rw [e1, e2]
          exact hw
      · rw [hdur, hdur2, Finset.sum_range_succ]
        congr 1
        · apply Finset.sum_congr rfl
          intro m _
          have e2 : j - 1 + 1 - corr_mat s i2 (j - 1) + m =
              j + 1 - (corr_mat s i2 (j - 1) + 1) + m := by omega
          rw [e2]
        · have e2 : j + 1 - (corr_mat s i2 (j - 1) + 1) + corr_mat s i2 (j - 1) = j := by
            omega
          rw [e2]

lemma pat_eq_of_pointwise (s : List MelodyNote) : ∀ (n a b : Nat),
    a + n ≤ s.length → b + n ≤ s.length →
    (∀ m, m < n → note_eq (nget s (a + m)) (nget s (b + m)) = true) →
    pat_eq ((s.drop a).take n) ((s.drop b).take n) = true := by
  intro n
  induction n with
  | zero => intro a b _ _ _; rfl
  | succ n2 ih =>
    intro a b ha hb h
    have ha2 : a < s.length := by omega
    have hb2 : b < s.length := by omega
    rw [List.drop_eq_getElem_cons ha2, List.drop_eq_getElem_cons hb2,
      List.take_succ_cons, List.take_succ_cons, pat_eq, Bool.and_eq_true]
    constructor
    · have h0 := h 0 (by omega)
      have hga : nget s a = s[a] := by rw [nget, List.getD_eq_getElem s dummyNote ha2]
      have hgb : nget s b = s[b] := by rw [nget, List.getD_eq_getElem s dummyNote hb2]
      rw [← hga, ← hgb]
      simpa using h0
    · apply ih (a + 1) (b + 1) (by omega) (by omega)
      intro m hm
      have hw := h (m + 1) (by omega)
      have e1 : a + (m + 1) = a + 1 + m := by omega
      have e2 : b + (m + 1) = b + 1 + m := by omega
      rw [e1, e2] at hw
      exact hw

lemma sum_take_map (s : List MelodyNote) : ∀ (n b : Nat), b + n ≤ s.length →
    (((s.drop b).take n).map MelodyNote.tick_duration).sum =
      ∑ m in Finset.range n, (nget s (b + m)).tick_duration := by
  intro n
  induction n with
  | zero => intro b _; simp
  | succ n2 ih =>
    intro b hb
    have hb2 : b < s.length := by omega
    rw [List.drop_eq_getElem_cons hb2, List.take_succ_cons, List.map_cons, List.sum_cons,
      ih (b + 1) (by omega), Finset.sum_range_succ']
    have hx : ∑ m in Finset.range n2, (nget s (b + 1 + m)).tick_duration =
        ∑ m in Finset.range n2, (nget s (b + (m + 1))).tick_duration := by
      apply Finset.sum_congr rfl
      intro m _
      have e : b + 1 + m = b + (m + 1) := by omega
      rw [e]
    rw [hx]
    have hgb : nget s (b + 0) = s[b] := by
      rw [nget]
      have e : b + 0 = b := rfl
      rw [e, List.getD_eq_getElem s dummyNote hb2]
    rw [hgb]
    exact add_comm _ _

/-- Claim C5: whenever `corr_mat` holds a positive run value `k` at
(i, j), the two notes are equal, the run fits (`k ≤ i + 1`, `j` in
range), the two `k`-note windows ending at `i` and `j` are element-wise
equal under `MelodyNote.__eq__`, and `corr_dur` at (i, j) is exactly the
sum of the tick durations of the second window. -/
theorem c5_run_window_equal (s : List MelodyNote) (i j k : Nat)
    (hij : i < j) (hk : corr_mat s i j = k) (hpos : 0 < k) :
    note_eq (nget s i) (nget s j) = true ∧ k ≤ i + 1 ∧ j < s.length ∧
    pat_eq ((s.drop (i + 1 - k)).take k) ((s.drop (j + 1 - k)).take k) = true ∧
    corr_dur s i j = (((s.drop (j + 1 - k)).take k).map MelodyNote.tick_duration).sum := by
  subst hk
  obtain ⟨hEq, hK, hij2, hjl, hwin, hdur⟩ := corr_aux s i j hpos
  refine ⟨hEq, hK, hjl, ?_, ?_⟩
  · apply pat_eq_of_pointwise s (corr_mat s i j) (i + 1 - corr_mat s i j)
      (j + 1 - corr_mat s i j) (by omega) (by omega)
    intro m hm
    exact hwin m hm
  · rw [hdur, sum_take_map s (corr_mat s i j) (j + 1 - corr_mat s i j) (by omega)]

/-- Witness for C5: the run of length 2 at cell (1, 3) of the C1 sequence. -/
theorem c5_run_window_equal_witness :
    (1 < 3 ∧ corr_mat c1_seq 1 3 = 2 ∧ 0 < 2) ∧
    (note_eq (nget c1_seq 1) (nget c1_seq 3) = true ∧ 2 ≤ 1 + 1 ∧ 3 < c1_seq.length ∧
     pat_eq ((c1_seq.drop (1 + 1 - 2)).take 2) ((c1_seq.drop (3 + 1 - 2)).take 2) = true ∧
     corr_dur c1_seq 1 3 =
       (((c1_seq.drop (3 + 1 - 2)).take 2).map MelodyNote.tick_duration).sum) :=
  ⟨⟨by decide, by decide, by decide⟩,
   c5_run_window_equal c1_seq 1 3 2 (by decide) (by decide) (by decide)⟩
